import Mathlib

/-!
Shallow embedding of the segmentation-guided stylization engine of
`ghibli-app/app.py` (class `GhibliStyleTransfer`), together with the
fallback / error-handling control flow of its `transform` method.

Numeric stages operate on a working buffer indexed as
`channel → row → col → ℚ` (exact rational arithmetic stands in for the
float tensor arithmetic of the source).  Out-of-range accesses used by the
convolutions model the zero padding of `avg_pool2d` / `conv2d`
(`count_include_pad` defaults to true, so the divisor is always the full
kernel area).
-/

namespace GhibliApp

/-- Working image buffer: channel, row, column. -/
abbrev Buf := ℕ → ℕ → ℕ → ℚ

/-- Per-pixel class label map (`class_map` in the source). -/
abbrev LabelMap := ℕ → ℕ → ℕ

/-- `tensor.clamp(0, 1)`. -/
def clampQ (x : ℚ) : ℚ := max 0 (min x 1)

/-- Zero-padded lookup of an `H × W` plane at integer coordinates, as the
padding of `avg_pool2d` / `conv2d` behaves. -/
def zget (H W : ℕ) (f : ℕ → ℕ → ℚ) (i j : ℤ) : ℚ :=
  if 0 ≤ i ∧ i < (H : ℤ) ∧ 0 ≤ j ∧ j < (W : ℤ) then f i.toNat j.toNat else 0

/-- Uniform box average of radius `r` (kernel `(2r+1) × (2r+1)`, stride 1,
padding `r`, padded zeros counted in the divisor).  `r = 4` gives the
`avg_pool2d(kernel_size=9, stride=1, padding=4)` mask smoothing and `r = 2`
the `conv2d` with `torch.ones(5,5)/25.0` and `padding=2`. -/
def boxAvg (r H W : ℕ) (f : ℕ → ℕ → ℚ) (i j : ℕ) : ℚ :=
  (∑ di ∈ Finset.range (2 * r + 1), ∑ dj ∈ Finset.range (2 * r + 1),
      zget H W f ((i : ℤ) + di - r) ((j : ℤ) + dj - r)) / ((2 * r + 1 : ℚ)) ^ 2

/-- Indicator plane `(class_map == i).float()`. -/
def indicator (lm : LabelMap) (k : ℕ) : ℕ → ℕ → ℚ :=
  fun i j => if lm i j = k then 1 else 0

/-- One smoothed per-class mask: 9×9 box average of the class indicator. -/
def smoothedMask (H W : ℕ) (lm : LabelMap) (k : ℕ) : ℕ → ℕ → ℚ :=
  boxAvg 4 H W (indicator lm k)

/-- `for i in range(num_classes): masks.append(...)` — the MaskBank. -/
def maskBank (H W : ℕ) (lm : LabelMap) (numClasses : ℕ) : List (ℕ → ℕ → ℚ) :=
  (List.range numClasses).map (fun k => smoothedMask H W lm k)

def skyClasses : List ℕ := [0, 2, 9]
def vegClasses : List ℕ := [3, 8]
def charClasses : List ℕ := [1, 15]

/-- One sky/water grading step: guarded by `if sky_class < len(masks)`;
`stylized[0] = stylized[0] * (1 - sky_mask * 0.3)` and
`stylized[2] = min(stylized[2] * (1 + sky_mask * 0.5), 1.0)`. -/
def skyStep (masks : List (ℕ → ℕ → ℚ)) (k : ℕ) (b : Buf) : Buf :=
  if h : k < masks.length then
    let m := masks[k]
    fun c i j =>
      if c = 0 then b 0 i j * (1 - m i j * 0.3)
      else if c = 2 then min (b 2 i j * (1 + m i j * 0.5)) 1
      else b c i j
  else b

/-- One vegetation grading step: guarded by `if veg_class < len(masks)`;
`stylized[1] = min(stylized[1] * (1 + veg_mask * 0.3), 1.0)` and
`stylized[0] = min(stylized[0] * (1 + veg_mask * 0.1), 1.0)`. -/
def vegStep (masks : List (ℕ → ℕ → ℚ)) (k : ℕ) (b : Buf) : Buf :=
  if h : k < masks.length then
    let m := masks[k]
    fun c i j =>
      if c = 1 then min (b 1 i j * (1 + m i j * 0.3)) 1
      else if c = 0 then min (b 0 i j * (1 + m i j * 0.1)) 1
      else b c i j
  else b

/-- One character/foreground grading step: for each RGB channel,
`stylized[c] = (1-mask)*stylized[c] + mask*((stylized[c]-0.5)*1.3+0.5).clamp(0,1)`. -/
def charStep (masks : List (ℕ → ℕ → ℚ)) (k : ℕ) (b : Buf) : Buf :=
  if h : k < masks.length then
    let m := masks[k]
    fun c i j =>
      if c < 3 then
        (1 - m i j) * b c i j + m i j * clampQ ((b c i j - 0.5) * 1.3 + 0.5)
      else b c i j
  else b

/-- The ColorGradingEngine: sky classes, then vegetation, then foreground,
each folding its step over the hardcoded class list. -/
def colorGrade (masks : List (ℕ → ℕ → ℚ)) (b : Buf) : Buf :=
  charClasses.foldl (fun acc k => charStep masks k acc)
    (vegClasses.foldl (fun acc k => vegStep masks k acc)
      (skyClasses.foldl (fun acc k => skyStep masks k acc) b))

/-- The fixed pastel tint `torch.tensor([0.02, 0.02, 0.05])`. -/
def pastelTint : ℕ → ℚ
  | 0 => 0.02
  | 1 => 0.02
  | _ => 0.05

/-- The GlobalGradeStage: `stylized = ((stylized - 0.5) * 1.2 + 0.5).clamp(0,1)`
then `stylized = stylized * (1 - 0.15) + pastel_tint * 0.15`. -/
def globalGrade (b : Buf) : Buf :=
  fun c i j => clampQ ((b c i j - 0.5) * 1.2 + 0.5) * (1 - 0.15) + pastelTint c * 0.15

/-- `edge_strength`: 1 at interior pixels (rows `1..H-2`, cols `1..W-2`)
whose class differs from a 4-connected neighbour, 0 everywhere else. -/
def edgeStrength (H W : ℕ) (lm : LabelMap) (i j : ℕ) : ℚ :=
  if (1 ≤ i ∧ i + 1 < H ∧ 1 ≤ j ∧ j + 1 < W) ∧
      (lm i j ≠ lm (i - 1) j ∨ lm i j ≠ lm (i + 1) j ∨
       lm i j ≠ lm i (j - 1) ∨ lm i j ≠ lm i (j + 1))
  then 1 else 0

/-- The EdgeAwareDetailStage: per RGB channel a 5×5 box blur (zero padding),
composited as `edge_strength * stylized[c] + (1 - edge_strength) * blurred`. -/
def edgeAwareDetail (H W : ℕ) (lm : LabelMap) (b : Buf) : Buf :=
  fun c i j =>
    if c < 3 then
      edgeStrength H W lm i j * b c i j +
        (1 - edgeStrength H W lm i j) * boxAvg 2 H W (b c) i j
    else b c i j

/-!
Control-flow model of `GhibliStyleTransfer.transform` and its fallback /
error-handling paths.  Python exceptions are modelled with `Except`: a stage
that would raise produces `.error`, and each `try/except` of the source is an
explicit `match`.  External collaborators (the torchvision resize, the model
inference, the PIL enhancement chain) are supplied as `Except`-valued data in
an `Env`, so a theorem can quantify over every combination of stage failures.
-/

/-- Error classes relevant to the control flow; `.oom` models a
`RuntimeError` whose message contains "CUDA out of memory". -/
inductive PErr
  | oom
  | runtimeErr
  | generic
deriving DecidableEq

/-- An image at the boundary of the pipeline, carrying its dimensions. -/
structure PImage where
  w : ℕ
  h : ℕ
deriving DecidableEq

/-- A `[1, 3, H, W]` tensor: spatial size plus channel data. -/
structure Tensor where
  h : ℕ
  w : ℕ
  val : ℕ → ℕ → ℕ → ℚ

def imagenetMean : ℕ → ℚ
  | 0 => 0.485
  | 1 => 0.456
  | _ => 0.406

def imagenetStd : ℕ → ℚ
  | 0 => 0.229
  | 1 => 0.224
  | _ => 0.225

/-- The fallback tensor built when preprocessing fails:
`torch.zeros(1,3,512,512)` then `(blank - mean) / std`. -/
def blankNormalized : Tensor :=
  ⟨512, 512, fun c _ _ => (0 - imagenetMean c) / imagenetStd c⟩

/-- `preprocess`: on success the torchvision pipeline resizes to 512×512 and
normalizes (the resulting channel data is the `.ok` payload); any internal
failure is caught and the blank normalized tensor is returned instead.
`preprocess` itself never raises. -/
def preprocessRun (pre : Except PErr (ℕ → ℕ → ℕ → ℚ)) : Tensor :=
  match pre with
  | .ok v => ⟨512, 512, v⟩
  | .error _ => blankNormalized

/-- Which of `torch.cuda.empty_cache()` / `gc.collect()` ran. -/
structure GuardEffects where
  cacheCleared : Bool
  gcCollected : Bool
deriving DecidableEq

/-- The inference `try/except RuntimeError` block: the model is invoked once
(attempt 0); on a CUDA-out-of-memory error the cached device memory is
released and a collection pass forced (when on CUDA) and the same error is
re-raised.  Later attempts are never consulted. -/
def inferenceGuard (cuda : Bool) (attempts : ℕ → Except PErr Unit) :
    Except PErr Unit × GuardEffects :=
  match attempts 0 with
  | .ok u => (.ok u, ⟨false, false⟩)
  | .error e =>
    if e = PErr.oom then
      if cuda then (.error e, ⟨true, true⟩) else (.error e, ⟨false, false⟩)
    else (.error e, ⟨false, false⟩)

/-- Everything the environment supplies to one `transform` call. -/
structure Env where
  modelLoaded : Bool
  cuda : Bool
  pre : Except PErr (ℕ → ℕ → ℕ → ℚ)
  inferAttempts : ℕ → Except PErr Unit
  styl : Except PErr Unit
  postprocessOk : Bool
  pilOk : Bool
  pilResult : PImage → PImage

/-- `apply_fallback_transform`: the PIL enhancement chain on success
(level 1); if the PIL processing raises, the original image is returned
unmodified (level 3).  The second component records the fallback level that
produced the result. -/
def fallbackRun (env : Env) (img : PImage) : PImage × ℕ :=
  if env.pilOk then (env.pilResult img, 1) else (img, 3)

/-- The body of the outer `try` of `transform`: preprocessing (which cannot
fail), guarded inference, the stylization stages, postprocessing.  An
uncaught stage error escapes as `.error` to the outer handler.  On success
the produced image has the spatial size of the working tensor (postprocess
recovery also yields a 512×512 blank). -/
def transformBody (env : Env) : Except PErr (PImage × ℕ) :=
  match (inferenceGuard env.cuda env.inferAttempts).1 with
  | .error e => .error e
  | .ok _ =>
    match env.styl with
    | .error e => .error e
    | .ok _ =>
      if env.postprocessOk then
        .ok (⟨(preprocessRun env.pre).w, (preprocessRun env.pre).h⟩, 0)
      else
        .ok (⟨512, 512⟩, 0)

/-- `transform`: if the model never loaded, go straight to the fallback;
otherwise run the body and catch any error with the fallback.  The result
always carries the level that produced it (0 = full pipeline). -/
def transform (env : Env) (img : PImage) : PImage × ℕ :=
  if env.modelLoaded then
    match transformBody env with
    | .ok r => r
    | .error _ => fallbackRun env img
  else fallbackRun env img

/-!
Non-finite-value model for the sanitizing step
(`if torch.isnan(output).any(): output = torch.nan_to_num(output, nan=0.0)`)
and the `postprocess` denormalize-and-clamp that follows it.
-/

/-- A float value: finite (rational), NaN, or a signed infinity. -/
inductive FVal
  | fin (q : ℚ)
  | nan
  | pinf
  | ninf
deriving DecidableEq

/-- Largest finite float32, the default `posinf` replacement of
`torch.nan_to_num`. -/
def floatMax : ℚ := 340282346638528859811704183484516925440

/-- `torch.nan_to_num(·, nan=0.0)` on one value: NaN becomes 0, infinities
become the extreme finite floats, finite values pass through. -/
def nanToNum : FVal → FVal
  | .nan => .fin 0
  | .pinf => .fin floatMax
  | .ninf => .fin (-floatMax)
  | .fin q => .fin q

def FVal.isFinite : FVal → Bool
  | .fin _ => true
  | _ => false

/-- A `3 × H × W` working buffer that may hold non-finite values. -/
abbrev FBuf (H W : ℕ) := Fin 3 → Fin H → Fin W → FVal

/-- `torch.isnan(output).any()`. -/
def hasNaN (H W : ℕ) (b : FBuf H W) : Prop :=
  ∃ c i j, b c i j = FVal.nan

instance (H W : ℕ) (b : FBuf H W) : Decidable (hasNaN H W b) := by
  unfold hasNaN; infer_instance

/-- The sanitizing step at the end of `transform`: `nan_to_num` is applied
to the whole buffer, but only when some NaN was detected. -/
def sanitizeOutput (H W : ℕ) (b : FBuf H W) : FBuf H W :=
  if hasNaN H W b then fun c i j => nanToNum (b c i j) else b

/-- The `postprocess` denormalization `tensor * std + mean` on one value
(`std` is positive, so infinities keep their sign and NaN propagates). -/
def denormalize (c : ℕ) (v : FVal) : FVal :=
  match v with
  | .fin q => .fin (q * imagenetStd c + imagenetMean c)
  | .nan => .nan
  | .pinf => .pinf
  | .ninf => .ninf

/-- `tensor.clamp(0, 1)` on one value: `clamp` maps the infinities to the
bounds and propagates NaN. -/
def clampF : FVal → FVal
  | .fin q => .fin (max 0 (min q 1))
  | .nan => .nan
  | .pinf => .fin 1
  | .ninf => .fin 0

/-- The value of the returned image at one position: sanitize, then the
`postprocess` denormalize and clamp. -/
def finalOutput (H W : ℕ) (b : FBuf H W) : FBuf H W :=
  fun c i j => clampF (denormalize c (sanitizeOutput H W b c i j))

/-! ### Range lemmas for the numeric stages -/

lemma clampQ_nonneg (x : ℚ) : 0 ≤ clampQ x := le_max_left 0 _

lemma clampQ_le_one (x : ℚ) : clampQ x ≤ 1 :=
  max_le (by norm_num) (min_le_right x 1)

lemma pastelTint_nonneg (c : ℕ) : 0 ≤ pastelTint c := by
  rcases c with _ | _ | c <;> simp [pastelTint] <;> norm_num

lemma pastelTint_le_one (c : ℕ) : pastelTint c ≤ 1 := by
  rcases c with _ | _ | c <;> simp [pastelTint] <;> norm_num

lemma zget_nonneg (H W : ℕ) (f : ℕ → ℕ → ℚ)
    (hf : ∀ i j, 0 ≤ f i j) (i j : ℤ) : 0 ≤ zget H W f i j := by
  unfold zget; split_ifs with h
  · exact hf _ _
  · exact le_refl 0

lemma zget_le_one (H W : ℕ) (f : ℕ → ℕ → ℚ)
    (hf : ∀ i j, f i j ≤ 1) (i j : ℤ) : zget H W f i j ≤ 1 := by
  unfold zget; split_ifs with h
  · exact hf _ _
  · norm_num

lemma boxAvg_nonneg (r H W : ℕ) (f : ℕ → ℕ → ℚ)
    (hf : ∀ i j, 0 ≤ f i j) (i j : ℕ) : 0 ≤ boxAvg r H W f i j := by
  unfold boxAvg
  apply div_nonneg
  · exact Finset.sum_nonneg fun di _ =>
      Finset.sum_nonneg fun dj _ => zget_nonneg H W f hf _ _
  · positivity

lemma boxAvg_le_one (r H W : ℕ) (f : ℕ → ℕ → ℚ)
    (hf : ∀ i j, f i j ≤ 1) (i j : ℕ) : boxAvg r H W f i j ≤ 1 := by
  unfold boxAvg
  rw [div_le_one (by positivity)]
  calc (∑ di ∈ Finset.range (2 * r + 1), ∑ dj ∈ Finset.range (2 * r + 1),
          zget H W f ((i : ℤ) + di - r) ((j : ℤ) + dj - r))
      ≤ ∑ di ∈ Finset.range (2 * r + 1), (2 * r + 1 : ℚ) := by
        apply Finset.sum_le_sum
        intro di _
        have h := Finset.sum_le_card_nsmul (Finset.range (2 * r + 1))
          (fun dj => zget H W f ((i : ℤ) + di - r) ((j : ℤ) + dj - r)) 1
          (fun dj _ => zget_le_one H W f hf _ _)
        rw [Finset.card_range] at h
        simpa using h
    _ = ((2 * r + 1 : ℕ) : ℚ) * (2 * r + 1 : ℚ) := by
        rw [Finset.sum_const, Finset.card_range, nsmul_eq_mul]
    _ ≤ (2 * r + 1 : ℚ) ^ 2 := by
        push_cast; ring_nf; norm_num

lemma globalGrade_nonneg (b : Buf) (c i j : ℕ) : 0 ≤ globalGrade b c i j := by
  unfold globalGrade
  have h1 := clampQ_nonneg ((b c i j - 0.5) * 1.2 + 0.5)
  have h2 := pastelTint_nonneg c
  nlinarith

lemma globalGrade_le_one (b : Buf) (c i j : ℕ) : globalGrade b c i j ≤ 1 := by
  unfold globalGrade
  have h1 := clampQ_le_one ((b c i j - 0.5) * 1.2 + 0.5)
  have h2 := pastelTint_le_one c
  nlinarith

lemma edgeStrength_eq_zero_or_one (H W : ℕ) (lm : LabelMap) (i j : ℕ) :
    edgeStrength H W lm i j = 0 ∨ edgeStrength H W lm i j = 1 := by
  unfold edgeStrength; split_ifs <;> simp

lemma edgeAwareDetail_nonneg (H W : ℕ) (lm : LabelMap) (b : Buf)
    (hb : ∀ c i j, 0 ≤ b c i j ∧ b c i j ≤ 1) (c i j : ℕ) :
    0 ≤ edgeAwareDetail H W lm b c i j := by
  unfold edgeAwareDetail
  split_ifs with hc
  · have hbl0 := boxAvg_nonneg 2 H W (b c) (fun i j => (hb c i j).1) i j
    have hx := hb c i j
    rcases edgeStrength_eq_zero_or_one H W lm i j with h | h <;> rw [h] <;>
      · ring_nf; linarith [hx.1]
  · exact (hb c i j).1

lemma edgeAwareDetail_le_one (H W : ℕ) (lm : LabelMap) (b : Buf)
    (hb : ∀ c i j, 0 ≤ b c i j ∧ b c i j ≤ 1) (c i j : ℕ) :
    edgeAwareDetail H W lm b c i j ≤ 1 := by
  unfold edgeAwareDetail
  split_ifs with hc
  · have hbl1 := boxAvg_le_one 2 H W (b c) (fun i j => (hb c i j).2) i j
    have hx := hb c i j
    rcases edgeStrength_eq_zero_or_one H W lm i j with h | h <;> rw [h] <;>
      · ring_nf; linarith [hx.2]
  · exact (hb c i j).2

/-- C1: for every input buffer, every channel value after the
GlobalGradeStage (contrast stretch clamped to [0,1] then the 0.15 blend with
the pastel tint) lies in [0,1], and so does every channel value after the
EdgeAwareDetailStage applied to that graded buffer. -/
theorem stage_outputs_in_unit_range (H W : ℕ) (lm : LabelMap) (b : Buf) (c i j : ℕ) :
    (0 ≤ globalGrade b c i j ∧ globalGrade b c i j ≤ 1) ∧
    (0 ≤ edgeAwareDetail H W lm (globalGrade b) c i j ∧
      edgeAwareDetail H W lm (globalGrade b) c i j ≤ 1) := by
  refine ⟨⟨globalGrade_nonneg b c i j, globalGrade_le_one b c i j⟩, ?_, ?_⟩
  · exact edgeAwareDetail_nonneg H W lm (globalGrade b)
      (fun c i j => ⟨globalGrade_nonneg b c i j, globalGrade_le_one b c i j⟩) c i j
  · exact edgeAwareDetail_le_one H W lm (globalGrade b)
      (fun c i j => ⟨globalGrade_nonneg b c i j, globalGrade_le_one b c i j⟩) c i j

/-- C6: the edge map is 0 on every border row/column, takes only the values
0 and 1, and an interior pixel is 1 exactly when its class differs from one
of its 4-connected neighbours. -/
theorem edgeStrength_border_interior (H W : ℕ) (lm : LabelMap) (i j : ℕ) :
    (edgeStrength H W lm i j = 0 ∨ edgeStrength H W lm i j = 1) ∧
    (¬(1 ≤ i ∧ i + 1 < H ∧ 1 ≤ j ∧ j + 1 < W) → edgeStrength H W lm i j = 0) ∧
    (1 ≤ i → i + 1 < H → 1 ≤ j → j + 1 < W →
      (edgeStrength H W lm i j = 1 ↔
        (lm i j ≠ lm (i - 1) j ∨ lm i j ≠ lm (i + 1) j ∨
         lm i j ≠ lm i (j - 1) ∨ lm i j ≠ lm i (j + 1)))) := by
  refine ⟨edgeStrength_eq_zero_or_one H W lm i j, ?_, ?_⟩
  · intro hb
    unfold edgeStrength
    rw [if_neg]
    rintro ⟨hbounds, -⟩
    exact hb hbounds
  · intro h1 h2 h3 h4
    unfold edgeStrength
    constructor
    · intro heq
      by_contra hd
      rw [if_neg] at heq
      · norm_num at heq
      · rintro ⟨-, hdis⟩
        exact hd hdis
    · intro hd
      rw [if_pos ⟨⟨h1, h2, h3, h4⟩, hd⟩]

/-- A small label map with a lone differing class at the centre, used to
exercise the edge-map characterization. -/
def lmCross : LabelMap := fun i j => if i = 1 ∧ j = 1 then 1 else 0

theorem edgeStrength_border_interior_witness :
    edgeStrength 3 3 lmCross 0 0 = 0 ∧ edgeStrength 3 3 lmCross 1 1 = 1 := by
  refine ⟨(edgeStrength_border_interior 3 3 lmCross 0 0).2.1 (by decide), ?_⟩
  exact ((edgeStrength_border_interior 3 3 lmCross 1 1).2.2 (by decide) (by decide)
    (by decide) (by decide)).mpr (by decide)

/-- A 2×2 label map whose rows carry different classes, giving masks that
overlap across the class boundary. -/
def lmStripe : LabelMap := fun i _ => i

/-- C7: each smoothed mask is exactly the 9×9 box average of its class
indicator with no renormalization across classes, and on an
overlapping-boundary case the per-pixel sum of all class masks exceeds or
falls short of 1 (here: falls short). -/
theorem masks_not_renormalized :
    (∀ H W lm k, smoothedMask H W lm k = boxAvg 4 H W (indicator lm k)) ∧
    ((∑ k ∈ Finset.range 2, smoothedMask 2 2 lmStripe k 0 0) > 1 ∨
     (∑ k ∈ Finset.range 2, smoothedMask 2 2 lmStripe k 0 0) < 1) := by
  refine ⟨fun _ _ _ _ => rfl, Or.inr ?_⟩
  simp only [smoothedMask, boxAvg, Finset.sum_range_succ, Finset.sum_range_zero,
    zget, indicator, lmStripe]
  norm_num

/-! ### Out-of-bounds grading steps are no-ops (C5) and Scenario A (C3) -/

lemma skyStep_oob (masks : List (ℕ → ℕ → ℚ)) (k : ℕ) (b : Buf)
    (h : masks.length ≤ k) : skyStep masks k b = b := dif_neg (not_lt.mpr h)

lemma vegStep_oob (masks : List (ℕ → ℕ → ℚ)) (k : ℕ) (b : Buf)
    (h : masks.length ≤ k) : vegStep masks k b = b := dif_neg (not_lt.mpr h)

lemma charStep_oob (masks : List (ℕ → ℕ → ℚ)) (k : ℕ) (b : Buf)
    (h : masks.length ≤ k) : charStep masks k b = b := dif_neg (not_lt.mpr h)

/-- C5: the MaskBank yields exactly one mask per class id below `numClasses`
(entry `k` is the smoothed mask of class `k`), a class with no occupancy
still yields a mask — it is all zero on the image — and every grading step
whose class id is at or beyond the mask list length leaves the buffer
untouched, so no mask lookup is out of bounds. -/
theorem maskBank_total_and_oob_skip (H W n : ℕ) (lm : LabelMap)
    (k₁ k₂ k₃ : ℕ) (masks : List (ℕ → ℕ → ℚ)) (b : Buf) :
    (maskBank H W lm n).length = n ∧
    (k₁ < n → (maskBank H W lm n)[k₁]? = some (smoothedMask H W lm k₁)) ∧
    ((∀ i j, i < H → j < W → lm i j ≠ k₂) →
      ∀ i j, smoothedMask H W lm k₂ i j = 0) ∧
    (masks.length ≤ k₃ →
      skyStep masks k₃ b = b ∧ vegStep masks k₃ b = b ∧ charStep masks k₃ b = b) := by
  refine ⟨by simp [maskBank], ?_, ?_, ?_⟩
  · intro hk
    have hk' : k₁ < (maskBank H W lm n).length := by simpa [maskBank] using hk
    rw [List.getElem?_eq_getElem hk']
    simp [maskBank]
  · intro habs i j
    unfold smoothedMask boxAvg
    rw [Finset.sum_eq_zero, zero_div]
    intro di _
    rw [Finset.sum_eq_zero]
    intro dj _
    unfold zget
    split_ifs with h
    · obtain ⟨h1, h2, h3, h4⟩ := h
      unfold indicator
      rw [if_neg]
      exact habs _ _ (by omega) (by omega)
    · rfl
  · intro hlen
    exact ⟨skyStep_oob masks k₃ b hlen, vegStep_oob masks k₃ b hlen,
      charStep_oob masks k₃ b hlen⟩

/-- The all-background label map of Scenario A. -/
def lmZero : LabelMap := fun _ _ => 0

theorem maskBank_total_and_oob_skip_witness :
    (maskBank 1 1 lmZero 2).length = 2 ∧
    (maskBank 1 1 lmZero 2)[1]? = some (smoothedMask 1 1 lmZero 1) ∧
    smoothedMask 1 1 lmZero 1 0 0 = 0 ∧
    skyStep [] 9 (fun _ _ _ => 0) = (fun _ _ _ => 0) := by
  obtain ⟨h1, h2, h3, h4⟩ :=
    maskBank_total_and_oob_skip 1 1 2 lmZero 1 1 9 [] (fun _ _ _ => 0)
  exact ⟨h1, h2 (by norm_num),
    h3 (fun i j hi hj => by simp [lmZero]) 0 0, (h4 (by simp)).1⟩

/-- The uniform (0.2, 0.2, 0.8) image of Scenario A. -/
def bufA : Buf := fun c _ _ =>
  if c = 0 then 0.2 else if c = 1 then 0.2 else if c = 2 then 0.8 else 0

/-- Scenario A's buffer after the ColorGradingEngine: uniform 4×4 image,
label map entirely class 0, a single class (class 0 is a sky class). -/
def gradedA : Buf := colorGrade (maskBank 4 4 lmZero 1) bufA

lemma colorGrade_singleton (m : ℕ → ℕ → ℚ) (b : Buf) :
    colorGrade [m] b = skyStep [m] 0 b := by
  show charStep [m] 15 (charStep [m] 1 (vegStep [m] 8 (vegStep [m] 3
    (skyStep [m] 9 (skyStep [m] 2 (skyStep [m] 0 b)))))) = skyStep [m] 0 b
  rw [skyStep_oob [m] 2 _ (by simp), skyStep_oob [m] 9 _ (by simp),
      vegStep_oob [m] 3 _ (by simp), vegStep_oob [m] 8 _ (by simp),
      charStep_oob [m] 1 _ (by simp), charStep_oob [m] 15 _ (by simp)]

set_option maxHeartbeats 1000000 in
/-- On the 4×4 all-class-0 label map the smoothed class-0 mask is `16/81` at
every pixel: the 9×9 window always catches the 16 image pixels and 65 padded
zeros, and `avg_pool2d` divides by the full kernel area. -/
lemma maskZero44 (i j : ℕ) (hi : i < 4) (hj : j < 4) :
    smoothedMask 4 4 lmZero 0 i j = 16 / 81 := by
  interval_cases i <;> interval_cases j <;>
    · simp only [smoothedMask, boxAvg, Finset.sum_range_succ, Finset.sum_range_zero,
        zget, indicator, lmZero]
      norm_num

/-- C3's claimed value is wrong on the code: at pixel (0,0) of Scenario A the
red channel after the ColorGradingEngine is `0.2·(1 − (16/81)·0.3) = 127/675`,
not `0.2·0.7 = 0.14`, because the smoothed mask of a 4×4 image never reaches
1 (the box average counts the zero padding). -/
theorem scenarioA_red_ne_spec : gradedA 0 0 0 ≠ 0.14 := by
  have hm := maskZero44 0 0 (by norm_num) (by norm_num)
  show colorGrade (maskBank 4 4 lmZero 1) bufA 0 0 0 ≠ 0.14
  rw [show maskBank 4 4 lmZero 1 = [smoothedMask 4 4 lmZero 0] from rfl,
    colorGrade_singleton]
  simp only [skyStep]
  norm_num [hm, bufA]

/-- C3 amended: in Scenario A (uniform 4×4 (0.2, 0.2, 0.8) image, label map
entirely class 0, class 0 a sky class) the buffer after the
ColorGradingEngine has at every pixel red = 0.2·(1 − (16/81)·0.3) = 127/675,
green unchanged = 0.2, and blue = min(0.8·(1 + (16/81)·0.5), 1) = 356/405,
the smoothed mask being 16/81 everywhere rather than 1. -/
theorem scenarioA_actual_values : ∀ (i j : Fin 4),
    gradedA 0 i j = 127 / 675 ∧ gradedA 1 i j = 1 / 5 ∧
    gradedA 2 i j = 356 / 405 := by
  intro i j
  have hm := maskZero44 i j i.isLt j.isLt
  show colorGrade (maskBank 4 4 lmZero 1) bufA 0 i j = _ ∧
    colorGrade (maskBank 4 4 lmZero 1) bufA 1 i j = _ ∧
    colorGrade (maskBank 4 4 lmZero 1) bufA 2 i j = _
  rw [show maskBank 4 4 lmZero 1 = [smoothedMask 4 4 lmZero 0] from rfl,
    colorGrade_singleton]
  refine ⟨?_, ?_, ?_⟩ <;>
    · simp only [skyStep]
      norm_num [hm, bufA]

/-! ### Fallback and error-handling theorems (C2, C4, C9, C10) -/

lemma preprocessRun_w (pre : Except PErr (ℕ → ℕ → ℕ → ℚ)) :
    (preprocessRun pre).w = 512 := by cases pre <;> rfl

lemma preprocessRun_h (pre : Except PErr (ℕ → ℕ → ℕ → ℚ)) :
    (preprocessRun pre).h = 512 := by cases pre <;> rfl

lemma transformBody_ok (env : Env) (r : PImage × ℕ)
    (hr : transformBody env = .ok r) : r = (⟨512, 512⟩, 0) := by
  unfold transformBody at hr
  rcases hg : (inferenceGuard env.cuda env.inferAttempts).1 with e | u <;> rw [hg] at hr
  · exact absurd hr (by simp)
  · rcases hs : env.styl with e | u' <;> rw [hs] at hr
    · exact absurd hr (by simp)
    · rcases hpo : env.postprocessOk with _ | _ <;> rw [hpo] at hr
      · simp only [Bool.false_eq_true, if_false, Except.ok.injEq] at hr
        exact hr.symm
      · simp only [if_true, Except.ok.injEq] at hr
        rw [← hr, preprocessRun_w env.pre, preprocessRun_h env.pre]

lemma fallbackRun_cases (env : Env) (img : PImage) :
    fallbackRun env img = (env.pilResult img, 1) ∨ fallbackRun env img = (img, 3) := by
  unfold fallbackRun
  rcases env.pilOk with _ | _ <;> simp

/-- C2: the stylization call never lets a stage error escape: any error of
the transform body is caught and control handed to the fallback, and when
the model is unavailable the call returns the PIL fallback (level 1) result
with recorded level 1. -/
theorem transform_catches_and_level1 (env : Env) (img : PImage) :
    (∀ e, transformBody env = .error e → transform env img = fallbackRun env img) ∧
    (env.modelLoaded = false → env.pilOk = true →
      transform env img = (env.pilResult img, 1)) := by
  constructor
  · intro e he
    unfold transform
    rcases hm : env.modelLoaded with _ | _
    · simp
    · simp [he]
  · intro hm hp
    unfold transform fallbackRun
    rw [hm, hp]
    simp

/-- A fully degraded environment: the classifier failed to load, the PIL
fallback chain works. -/
def envModelDown : Env :=
  ⟨false, false, .ok (fun _ _ _ => 0), fun _ => .ok (), .ok (), true, true, id⟩

theorem transform_catches_and_level1_witness :
    transform envModelDown ⟨7, 9⟩ = (⟨7, 9⟩, 1) :=
  (transform_catches_and_level1 envModelDown ⟨7, 9⟩).2 rfl rfl

/-- C4: a level-0 result always has the classifier's fixed 512×512
resolution, never the input's, while any fallback-level result (the PIL
chain preserves image size, and level 3 returns the original) keeps the
input's original dimensions. -/
theorem level0_fixed_resolution (env : Env) (img : PImage) :
    ((transform env img).2 = 0 → (transform env img).1 = ⟨512, 512⟩) ∧
    ((∀ im, (env.pilResult im).w = im.w ∧ (env.pilResult im).h = im.h) →
      (transform env img).2 ≠ 0 →
      (transform env img).1.w = img.w ∧ (transform env img).1.h = img.h) := by
  have hfb : ∀ (hpil : ∀ im, (env.pilResult im).w = im.w ∧ (env.pilResult im).h = im.h),
      (fallbackRun env img).1.w = img.w ∧ (fallbackRun env img).1.h = img.h := by
    intro hpil
    rcases fallbackRun_cases env img with h | h <;> rw [h]
    · exact hpil img
    · exact ⟨rfl, rfl⟩
  have hfb2 : (fallbackRun env img).2 ≠ 0 := by
    rcases fallbackRun_cases env img with h | h <;> rw [h] <;> simp
  unfold transform
  rcases hm : env.modelLoaded with _ | _
  · simp only [Bool.false_eq_true, if_false]
    exact ⟨fun h0 => absurd h0 hfb2, fun hpil _ => hfb hpil⟩
  · simp only [if_true]
    rcases hb : transformBody env with e | r
    · exact ⟨fun h0 => absurd h0 hfb2, fun hpil _ => hfb hpil⟩
    · have := transformBody_ok env r hb
      subst this
      exact ⟨fun _ => rfl, fun _ h0 => absurd rfl h0⟩

/-- A fully healthy environment: everything at level 0 succeeds. -/
def envAllOk : Env :=
  ⟨true, true, .ok (fun _ _ _ => 0), fun _ => .ok (), .ok (), true, true, id⟩

theorem level0_fixed_resolution_witness :
    (transform envAllOk ⟨100, 200⟩).1 = ⟨512, 512⟩ ∧
    (transform envModelDown ⟨100, 200⟩).1.w = 100 ∧
    (transform envModelDown ⟨100, 200⟩).1.h = 200 := by
  refine ⟨(level0_fixed_resolution envAllOk ⟨100, 200⟩).1 rfl, ?_⟩
  exact (level0_fixed_resolution envModelDown ⟨100, 200⟩).2
    (fun im => ⟨rfl, rfl⟩) (by simp [transform, envModelDown, fallbackRun])

/-- C9: on a CUDA out-of-memory inference error the guard releases the cached
device memory, forces a collection pass, and re-raises the very same error —
it never consults a further attempt — and the transform then descends to the
fallback. -/
theorem oom_cleanup_reraise_descend (env : Env) (img : PImage)
    (a a' : ℕ → Except PErr Unit)
    (hoom : env.inferAttempts 0 = .error PErr.oom)
    (hcuda : env.cuda = true) (hm : env.modelLoaded = true)
    (hagree : a 0 = a' 0) :
    inferenceGuard env.cuda env.inferAttempts = (.error PErr.oom, ⟨true, true⟩) ∧
    transform env img = fallbackRun env img ∧
    (∀ cu, inferenceGuard cu a = inferenceGuard cu a') := by
  refine ⟨?_, ?_, ?_⟩
  · rw [hcuda]
    unfold inferenceGuard
    rw [hoom]
    simp
  · unfold transform
    rw [hm]
    have hbody : transformBody env = .error PErr.oom := by
      unfold transformBody inferenceGuard
      rw [hoom, hcuda]
      simp
    rw [hbody]
    simp
  · intro cu
    unfold inferenceGuard
    rw [hagree]

/-- An environment whose single inference attempt dies with CUDA OOM. -/
def envOOM : Env :=
  ⟨true, true, .ok (fun _ _ _ => 0), fun _ => .error PErr.oom, .ok (), true, true, id⟩

theorem oom_cleanup_reraise_descend_witness :
    inferenceGuard envOOM.cuda envOOM.inferAttempts =
      (.error PErr.oom, ⟨true, true⟩) ∧
    transform envOOM ⟨4, 4⟩ = fallbackRun envOOM ⟨4, 4⟩ := by
  obtain ⟨h1, h2, h3⟩ := oom_cleanup_reraise_descend envOOM ⟨4, 4⟩
    (fun _ => .error PErr.oom) (fun _ => .error PErr.oom) rfl rfl rfl rfl
  exact ⟨h1, h2⟩

/-- C10: a preprocessing failure is absorbed inside `preprocess`: it returns
the blank 1×3×512×512 tensor normalized with the ImageNet mean/std instead of
raising, and the level-0 pipeline keeps running on it — the recorded level is
still 0, no fallback descent happens. -/
theorem preprocess_failure_blank_no_descent (env : Env) (e : PErr) (img : PImage)
    (hpre : env.pre = .error e) (hm : env.modelLoaded = true)
    (hin : env.inferAttempts 0 = .ok ()) (hst : env.styl = .ok ()) :
    preprocessRun env.pre = blankNormalized ∧
    blankNormalized.h = 512 ∧ blankNormalized.w = 512 ∧
    (∀ c i j, blankNormalized.val c i j = (0 - imagenetMean c) / imagenetStd c) ∧
    (transform env img).2 = 0 := by
  refine ⟨by rw [hpre]; rfl, rfl, rfl, fun c i j => rfl, ?_⟩
  have hguard : (inferenceGuard env.cuda env.inferAttempts).1 = .ok () := by
    unfold inferenceGuard
    rw [hin]
  unfold transform
  rw [hm]
  unfold transformBody
  rw [hguard, hst]
  rcases hpo : env.postprocessOk with _ | _ <;> simp

/-- An environment where only preprocessing fails. -/
def envPreFail : Env :=
  ⟨true, false, .error PErr.generic, fun _ => .ok (), .ok (), true, true, id⟩

theorem preprocess_failure_blank_no_descent_witness :
    preprocessRun envPreFail.pre = blankNormalized ∧
    (transform envPreFail ⟨8, 8⟩).2 = 0 := by
  obtain ⟨h1, _, _, _, h5⟩ := preprocess_failure_blank_no_descent envPreFail
    PErr.generic ⟨8, 8⟩ rfl rfl rfl rfl
  exact ⟨h1, h5⟩

/-! ### Sanitizer theorems (C8) -/

lemma nanToNum_ne_nan (v : FVal) : nanToNum v ≠ FVal.nan := by
  cases v <;> simp [nanToNum]

lemma clampF_denormalize_finite (c : ℕ) (v : FVal) (hv : v ≠ FVal.nan) :
    (clampF (denormalize c v)).isFinite = true := by
  cases v <;> simp_all [denormalize, clampF, FVal.isFinite]

/-- C8 as stated is wrong on the code: the sanitizing step keys on
`torch.isnan(...).any()`, so a buffer holding an infinity but no NaN is
passed through unchanged — the non-finite value is not replaced with 0
(it is later clamped to 1 by `postprocess`, not zeroed). -/
def bufInfC8 : FBuf 1 1 := fun c _ _ => if c = 0 then FVal.pinf else FVal.fin 0

theorem sanitize_misses_infinity :
    (bufInfC8 0 0 0).isFinite = false ∧
    sanitizeOutput 1 1 bufInfC8 0 0 0 ≠ FVal.fin 0 ∧
    finalOutput 1 1 bufInfC8 0 0 0 = FVal.fin 1 := by
  have hno : ¬ hasNaN 1 1 bufInfC8 := by
    rintro ⟨c, i, j, hc⟩
    fin_cases c <;> simp [bufInfC8] at hc
  refine ⟨rfl, ?_, ?_⟩
  · unfold sanitizeOutput
    rw [if_neg hno]
    simp [bufInfC8]
  · unfold finalOutput sanitizeOutput
    rw [if_neg hno]
    rfl

/-- C8 amended: a NaN appearing in the working buffer is replaced with 0
before postprocessing (whenever any NaN is present the whole buffer goes
through `nan_to_num`), infinities are only clamped into [0,1] rather than
zeroed, and either way the image returned to the caller contains no
non-finite value. -/
theorem nan_zeroed_output_finite (H W : ℕ) (b : FBuf H W) :
    (∀ c i j, b c i j = FVal.nan → sanitizeOutput H W b c i j = FVal.fin 0) ∧
    (∀ c i j, (finalOutput H W b c i j).isFinite = true) := by
  constructor
  · intro c i j hnan
    unfold sanitizeOutput
    rw [if_pos ⟨c, i, j, hnan⟩, hnan]
    rfl
  · intro c i j
    unfold finalOutput
    apply clampF_denormalize_finite
    unfold sanitizeOutput
    split_ifs with h
    · exact nanToNum_ne_nan _
    · intro hn
      exact h ⟨c, i, j, hn⟩

def bufNaNC8 : FBuf 1 1 := fun _ _ _ => FVal.nan

theorem nan_zeroed_output_finite_witness :
    sanitizeOutput 1 1 bufNaNC8 0 0 0 = FVal.fin 0 ∧
    (finalOutput 1 1 bufNaNC8 0 0 0).isFinite = true :=
  ⟨(nan_zeroed_output_finite 1 1 bufNaNC8).1 0 0 0 rfl,
   (nan_zeroed_output_finite 1 1 bufNaNC8).2 0 0 0⟩

end GhibliApp
